import Mathlib

/-!
Verification of the Binance 1m kline fetcher (`tools/binance/fetch_binance_1m.py`
and `tools/binance/common/timeutils.py`).

The Python modules are shallowly embedded below: pure helpers become Lean
functions, fallible helpers (those raising `ValueError` / `SystemExit`) return
`Except String`, and the paginated fetch loop becomes an explicit step function
on a `FetchState`, driven by a stream of upstream responses and a fuel bound.
Python integers are `Int`/`Nat` (they are unbounded, so no wrap-around is
modelled); the exponential-backoff float is `ℚ`, which is exact on every value
the code can produce (1, 2, 4, ..., 64 capped at 60 are all exact binary
floats, and `min`/doubling are exact on them).
-/

namespace CentralDataKitchen

/-! ## TimeModel: `tools/binance/common/timeutils.py`

Python's `datetime.fromtimestamp(sec, tz=timezone.utc)` and
`datetime.strptime` work in the proleptic Gregorian calendar.  We embed that
calendar arithmetic directly.  The embedding counts days from the Unix epoch
1970-01-01 and is therefore faithful for non-negative epoch timestamps
(every claim quantifies over non-negative / epoch-range values only).
`datetime` additionally restricts years to 1..9999; that limit resurfaces
below through the 4-digit `%Y` directive of `ISO_FORMAT`.
-/

/-- Proleptic Gregorian leap-year rule (as used by Python's `datetime`). -/
def is_leap (y : Nat) : Bool :=
  (y % 4 == 0 && y % 100 != 0) || (y % 400 == 0)

/-- Length of month `m` (1-based) of year `y` in the Gregorian calendar. -/
def days_in_month (y m : Nat) : Nat :=
  if m = 2 then (if is_leap y then 29 else 28)
  else if m = 4 ∨ m = 6 ∨ m = 9 ∨ m = 11 then 30
  else 31

/-- Length of Gregorian year `y` in days. -/
def days_in_year (y : Nat) : Nat :=
  if is_leap y then 366 else 365

/-- Days from 1970-01-01 to `y`-01-01 (0 for years up to 1970). -/
def daysBeforeYear : Nat → Nat
  | 0 => 0
  | y + 1 => if 1970 ≤ y then daysBeforeYear y + days_in_year y else 0

/-- Days from `y`-01-01 to `y`-`m`-01 (month 1-based; 0 for `m ≤ 1`). -/
def daysBeforeMonth (y : Nat) : Nat → Nat
  | 0 => 0
  | 1 => 0
  | m + 1 => daysBeforeMonth y m + days_in_month y m

/-- Days from the epoch to the date `y`-`m`-`d` (the inverse direction of
`datetime.fromtimestamp`; used by `datetime.timestamp()` after `strptime`). -/
def days_from_civil (y m d : Nat) : Nat :=
  daysBeforeYear y + daysBeforeMonth y m + (d - 1)

/-- Walk forward from year `y`, consuming whole years out of the day count
`d`; `fuel` bounds the number of steps (each step consumes ≥ 365 days, so
`d / 365 + 1` steps always suffice).  Returns the year and day-of-year. -/
def year_from_days : Nat → Nat → Nat → Nat × Nat
  | 0, y, d => (y, d)
  | fuel + 1, y, d =>
    if d < days_in_year y then (y, d)
    else year_from_days fuel (y + 1) (d - days_in_year y)

/-- Walk forward from month `m` of year `y`, consuming whole months out of
the day-of-year `d`; `fuel` bounds the steps (11 suffices from January).
Returns the month and the 0-based day-of-month. -/
def month_from_doy (y : Nat) : Nat → Nat → Nat → Nat × Nat
  | 0, m, d => (m, d)
  | fuel + 1, m, d =>
    if d < days_in_month y m then (m, d)
    else month_from_doy y fuel (m + 1) (d - days_in_month y m)

/-- The decimal digits of `n % 10^w`, zero-padded to exactly `w` characters,
most significant first.  Models the zero-padded fixed-width fields of
`strftime` (`%m`, `%d`, `%H`, `%M`, `%S` with `w = 2`, `%f` with `w = 6`,
`%Y` with `w = 4` for the 4-digit years all claims live in). -/
def natDigitsPadded : Nat → Nat → List Char
  | 0, _ => []
  | w + 1, n => Char.ofNat (48 + n / 10 ^ w % 10) :: natDigitsPadded w (n % 10 ^ w)

/-- `strftime %Y`: 4-digit zero-padded year; years ≥ 10000 print in full
(such years are out of `datetime`'s range and unreachable in Python — the
branch only matters for the model's totality). -/
def yearChars (y : Nat) : List Char :=
  if y < 10000 then natDigitsPadded 4 y else (toString y).data

/-- The character list of `dt.strftime(ISO_FORMAT)` with
`ISO_FORMAT = "%Y-%m-%dT%H:%M:%S.%fZ"`. -/
def renderIso (y m d hh mi ss us : Nat) : List Char :=
  yearChars y ++ '-' :: natDigitsPadded 2 m ++ '-' :: natDigitsPadded 2 d
    ++ 'T' :: natDigitsPadded 2 hh ++ ':' :: natDigitsPadded 2 mi
    ++ ':' :: natDigitsPadded 2 ss ++ '.' :: natDigitsPadded 6 us ++ ['Z']

/-- `timeutils.ms_to_iso8601`: `seconds, remainder = divmod(ms, 1000)`;
`datetime.fromtimestamp(seconds, utc) + timedelta(milliseconds=remainder)`
(so the microsecond field is `remainder * 1000`), formatted with
`ISO_FORMAT`.  Embedded for the non-negative domain (`Nat`); Python's
`divmod` is floor-based and agrees with `Nat` arithmetic there. -/
def ms_to_iso8601 (ms : Nat) : String :=
  let seconds := ms / 1000
  let msRem := ms % 1000
  let days := seconds / 86400
  let sod := seconds % 86400
  let yd := year_from_days (days / 365 + 1) 1970 days
  let md := month_from_doy yd.1 11 1 yd.2
  String.mk (renderIso yd.1 md.1 (md.2 + 1) (sod / 3600) (sod % 3600 / 60) (sod % 60)
    (msRem * 1000))

/-- Greedily consume up to `fuel` decimal digits from `cs`, returning the
accumulated value, the number of digits consumed, and the rest.  Models the
bounded greedy digit runs of `_strptime`'s field regexes. -/
def takeDigits : Nat → Nat → Nat → List Char → Nat × Nat × List Char
  | 0, acc, cnt, cs => (acc, cnt, cs)
  | _ + 1, acc, cnt, [] => (acc, cnt, [])
  | fuel + 1, acc, cnt, c :: cs =>
    if c.isDigit then takeDigits fuel (acc * 10 + (c.toNat - 48)) (cnt + 1) cs
    else (acc, cnt, c :: cs)

/-- Consume between 1 and `maxw` digits (like the `\d{1,maxw}`-style regexes
`_strptime` uses for its numeric directives); fail on zero digits. -/
def parseNum (maxw : Nat) (cs : List Char) : Option (Nat × Nat × List Char) :=
  match takeDigits maxw 0 0 cs with
  | (v, cnt, rest) => if cnt = 0 then none else some (v, cnt, rest)

/-- Consume one expected literal character of the format string.
`_strptime` compiles the whole format regex with `re.IGNORECASE`, so the
letter literals `T` and `Z` also match their lowercase variants; the
comparison is by ASCII lowercasing (the non-letter literals `-`, `:`, `.`
are unaffected). -/
def expectChar (c : Char) : List Char → Option (List Char)
  | [] => none
  | x :: xs => if x.toLower = c.toLower then some xs else none

/-- One numeric field of the format followed by one literal character. -/
def parseNumLit (maxw : Nat) (lit : Char) (cs : List Char) : Option (Nat × Nat × List Char) := do
  let t ← parseNum maxw cs
  let rest ← expectChar lit t.2.2
  return (t.1, t.2.1, rest)

/-- `datetime.strptime(value, "%Y-%m-%dT%H:%M:%S.%fZ")`, embedded over the
character list: `%Y` is exactly 4 digits, `%m`/`%d`/`%H`/`%M`/`%S` are 1-2
digits, `%f` is 1-6 digits right-padded to microseconds, `-`/`T`/`:`/`.`/`Z`
are literals matched case-insensitively (`_strptime` compiles the format
with `re.IGNORECASE`), and the whole string must be consumed.  The combined
regex and `datetime`-constructor range checks (month 1-12, day within the
month, hour ≤ 23, minute/second ≤ 59, year ≥ 1) are applied at the end.
Note the final `Z` is a literal character of the format, not an offset
directive, so no parsed value ever carries a UTC offset. -/
def parse_iso (cs : List Char) : Option (Nat × Nat × Nat × Nat × Nat × Nat × Nat) := do
  let ty ← parseNum 4 cs
  let c1 ← expectChar '-' ty.2.2
  let tm ← parseNumLit 2 '-' c1
  let td ← parseNumLit 2 'T' tm.2.2
  let th ← parseNumLit 2 ':' td.2.2
  let tmi ← parseNumLit 2 ':' th.2.2
  let tss ← parseNumLit 2 '.' tmi.2.2
  let tf ← parseNumLit 6 'Z' tss.2.2
  let y := ty.1
  let m := tm.1
  let d := td.1
  if tf.2.2 = [] ∧ ty.2.1 = 4 ∧ 1 ≤ y ∧ 1 ≤ m ∧ m ≤ 12 ∧ 1 ≤ d ∧ d ≤ days_in_month y m
      ∧ th.1 ≤ 23 ∧ tmi.1 ≤ 59 ∧ tss.1 ≤ 59 then
    some (y, m, d, th.1, tmi.1, tss.1, tf.1 * 10 ^ (6 - tf.2.1))
  else none

/-- `timeutils.iso8601_to_ms`: raises on the empty string, parses with
`ISO_FORMAT`, and returns `int(dt.timestamp() * 1000)`.  The timestamp
arithmetic is embedded exactly over the integers (total microseconds divided
by 1000); this coincides with Python's float computation on every
minute-aligned value in `datetime`'s range, which is the domain the claims
quantify over.  Years below 1970 would produce a negative timestamp in
Python; this `Nat`-valued model covers the epoch-nonnegative domain of the
claims.  The parsed datetime never carries a tzinfo (the format has no
offset directive), so the `dt.tzinfo is None` branch — "treat as UTC" —
is always the one taken. -/
def iso8601_to_ms (value : String) : Except String Nat :=
  if value = "" then .error "value is required"
  else
    match parse_iso value.data with
    | none => .error "time data does not match format"
    | some (y, m, d, hh, mi, ss, us) =>
      .ok (((days_from_civil y m d * 86400 + hh * 3600 + mi * 60 + ss) * 1000000 + us) / 1000)

/-- `timeutils.ensure_minute_alignment`: raise `ValueError` unless
`ms_value % 60000 == 0`.  Lean's `Int` `%` (`Int.emod`) returns a value in
`[0, 60000)` like Python's floor-mod with a positive divisor, so the
embedding agrees with the source on negative inputs too. -/
def ensure_minute_alignment (ms_value : Int) : Except String Unit :=
  if ms_value % 60000 ≠ 0 then
    .error (toString ms_value ++ " is not aligned to minute boundaries")
  else .ok ()

/-- `timeutils.minute_close_from_open`: validate alignment, then `open_ms + 60000`. -/
def minute_close_from_open (open_ms : Int) : Except String Int := do
  ensure_minute_alignment open_ms
  return open_ms + 60000

/-- `timeutils.minute_open_from_close`: validate alignment, then `close_ms - 60000`. -/
def minute_open_from_close (close_ms : Int) : Except String Int := do
  ensure_minute_alignment close_ms
  return close_ms - 60000

/-- `timeutils.MinuteRange` (only the fields the fetcher reads). -/
structure MinuteRange where
  start_ms : Int
  end_ms : Int
  deriving Repr, DecidableEq

/-! ## FetchEngine: `tools/binance/fetch_binance_1m.py`, `fetch_klines`

The loop body is embedded as a step function `fetchStep` on an explicit
`FetchState`; one upstream response is consumed per iteration.  CSV
persistence is modelled by the `written` list (the code appends each page's
accepted rows via `write_rows` before advancing the cursor, and `write_rows`
is a no-op on an empty batch, so `written ++ rows` captures it either way).
The `time.sleep(backoff)` calls are recorded in the `sleeps` log.  Uncaught
exceptions — `SystemExit` from `raise_for_status` and `ValueError` from a
misaligned kline open time — surface as `StepResult.abort`. -/

/-- One kline record of the upstream JSON array: `entry[0]` is the open time
in ms, `entry[1]..entry[5]` are the OHLCV strings the code copies through. -/
structure Entry where
  open_ms : Int
  fo : String
  fh : String
  fl : String
  fc : String
  fv : String
  deriving Repr, DecidableEq

/-- One persisted CSV data row.  The CSV stores
`[ms_to_iso8601(close_ms), open, high, low, close, volume]`; we keep the
close timestamp in milliseconds (which determines the ISO string) plus the
copied payload fields. -/
structure Row where
  timestamp_ms : Int
  fo : String
  fh : String
  fl : String
  fc : String
  fv : String
  deriving Repr, DecidableEq

/-- The upstream response to one `session.get`: a transport failure
(`requests.RequestException`) or an HTTP status with a decoded JSON body. -/
inductive Response where
  | transportError
  | status (code : Nat) (data : List Entry)
  deriving Repr, DecidableEq

/-- The mutable loop state of `fetch_klines`. -/
structure FetchState where
  start_open_ms : Int
  last_close_ms : Option Int
  backoff : ℚ
  has_progress : Bool
  written : List Row
  sleeps : List ℚ
  deriving Repr, DecidableEq

/-- Result of one loop iteration: continue looping, `break` (empty page), or
an uncaught exception ending the run. -/
inductive StepResult where
  | continu (st : FetchState)
  | stop (st : FetchState)
  | abort (st : FetchState) (msg : String)
  deriving Repr, DecidableEq

/-- The state carried by a step result. -/
def StepResult.state : StepResult → FetchState
  | .continu st => st
  | .stop st => st
  | .abort st _ => st

/-- Python truthiness of the `Optional[int]` cursor field: `None` and `0`
are falsy (`if last_close_ms and ...`). -/
def intTruthy : Option Int → Bool
  | none => false
  | some v => v != 0

/-- The `for entry in data:` body of `fetch_klines` (lines 101-119): compute
`close_ms` (validating alignment, which can raise), drop records closing
after the window or not beyond a truthy `last_close_ms`, otherwise append
the converted row and advance `last_close_ms` and `has_progress`. -/
def processEntries (end_close_ms : Int) :
    List Entry → List Row → Option Int → Bool → Except String (List Row × Option Int × Bool)
  | [], rows, last, prog => .ok (rows, last, prog)
  | e :: es, rows, last, prog =>
    match minute_close_from_open e.open_ms with
    | .error msg => .error msg
    | .ok close_ms =>
      if close_ms > end_close_ms then
        processEntries end_close_ms es rows last prog
      else if intTruthy last && decide (close_ms ≤ last.getD 0) then
        processEntries end_close_ms es rows last prog
      else
        processEntries end_close_ms es
          (rows ++ [⟨close_ms, e.fo, e.fh, e.fl, e.fc, e.fv⟩]) (some close_ms) true

/-- One iteration of the `while start_open_ms < end_close_ms` loop, given the
upstream response to this iteration's request. -/
def fetchStep (w : MinuteRange) (st : FetchState) (resp : Response) : StepResult :=
  match resp with
  | .transportError =>
    .continu { st with backoff := min (st.backoff * 2) 60, sleeps := st.sleeps ++ [st.backoff] }
  | .status code data =>
    if code = 429 then
      .continu { st with backoff := min (st.backoff * 2) 60, sleeps := st.sleeps ++ [st.backoff] }
    else if 400 ≤ code then
      .abort st ("HTTP error: " ++ toString code)
    else
      let st1 : FetchState := { st with backoff := 1 }
      match data with
      | [] => .stop st1
      | e :: es =>
        match processEntries w.end_ms (e :: es) [] st1.last_close_ms st1.has_progress with
        | .error msg => .abort st1 msg
        | .ok (rows, last, prog) =>
          let st2 : FetchState :=
            { st1 with written := st1.written ++ rows, last_close_ms := last, has_progress := prog }
          let last_open_ms := (es.getLastD e).open_ms
          let next_open := last_open_ms + 60000
          let next_open := if next_open ≤ st2.start_open_ms then st2.start_open_ms + 60000 else next_open
          .continu { st2 with start_open_ms := next_open }

/-- Lines 53-61 of `fetch_klines`: window bounds, resume point, cursor
initialization.  `last_timestamp` is what `read_last_timestamp` returned
(`none` for a missing/empty CSV); note Python's `if last_timestamp:` also
treats the empty string as "no resume point".  Parsing or alignment
failures raise `ValueError` and abort the run before any request. -/
def initState (w : MinuteRange) (last_timestamp : Option String) : Except String FetchState :=
  match last_timestamp with
  | none => .ok ⟨w.start_ms, none, 1, false, [], []⟩
  | some s =>
    if s = "" then .ok ⟨w.start_ms, none, 1, false, [], []⟩
    else
      match iso8601_to_ms s with
      | .error msg => .error msg
      | .ok c =>
        match ensure_minute_alignment (c : Int) with
        | .error msg => .error msg
        | .ok _ =>
          match minute_open_from_close (c : Int) with
          | .error msg => .error msg
          | .ok resume_open =>
            .ok ⟨max w.start_ms resume_open, some (c : Int), 1, false, [], []⟩

/-- Outcome of a finished run: normal loop exit, or an uncaught exception. -/
inductive RunOutcome where
  | finished (st : FetchState)
  | aborted (st : FetchState) (msg : String)
  deriving Repr, DecidableEq

/-- The state at the end of a run. -/
def RunOutcome.state : RunOutcome → FetchState
  | .finished st => st
  | .aborted st _ => st

/-- The fetch loop, driven by the stream of upstream responses (`stream i`
answers the `i`-th request of the run) and a fuel bound; `none` means the
fuel ran out before the loop finished.  The loop itself has no bound — the
termination theorem below exhibits sufficient fuel. -/
def fetchRunF (w : MinuteRange) (stream : Nat → Response) :
    Nat → Nat → FetchState → Option RunOutcome
  | 0, _, _ => none
  | fuel + 1, i, st =>
    if st.start_open_ms < w.end_ms then
      match fetchStep w st (stream i) with
      | .continu st1 => fetchRunF w stream fuel (i + 1) st1
      | .stop st1 => some (.finished st1)
      | .abort st1 msg => some (.aborted st1 msg)
    else some (.finished st)

/-- A response on which `fetch_klines` takes the success path (no transport
error, not 429, `raise_for_status` does not raise). -/
def isSuccessResp : Response → Bool
  | .transportError => false
  | .status code _ => !(code == 429) && decide (code < 400)

/-- The data carried by a response (empty for a transport error). -/
def Response.data : Response → List Entry
  | .transportError => []
  | .status _ data => data

/-! ## Calendar lemmas -/

/-- Total days of the `n` consecutive years starting at year `y` (proof-side
helper for summing `days_in_year` in bounded chunks). -/
def daysFromYear (y : Nat) : Nat → Nat
  | 0 => 0
  | n + 1 => daysFromYear y n + days_in_year (y + n)

theorem days_in_year_pos (y : Nat) : 365 ≤ days_in_year y := by
  unfold days_in_year; split <;> omega

theorem daysBeforeYear_succ (y : Nat) (h : 1970 ≤ y) :
    daysBeforeYear (y + 1) = daysBeforeYear y + days_in_year y := by
  simp [daysBeforeYear, h]

theorem daysBeforeYear_le {y z : Nat} (h : y ≤ z) :
    daysBeforeYear y ≤ daysBeforeYear z := by
  induction z with
  | zero => rw [Nat.le_zero.mp h]
  | succ n ih =>
    rcases Nat.lt_or_ge y (n + 1) with hy | hy
    · have hn := ih (by omega)
      by_cases h1970 : 1970 ≤ n
      · rw [daysBeforeYear_succ n h1970]; omega
      · have hz : daysBeforeYear (n + 1) = 0 := by simp [daysBeforeYear, h1970]
        have hy0 : daysBeforeYear y = 0 := by
          cases y with
          | zero => rfl
          | succ k => simp [daysBeforeYear, show ¬ 1970 ≤ k by omega]
        omega
    · have he : y = n + 1 := by omega
      rw [he]

theorem daysFromYear_add (y a b : Nat) :
    daysFromYear y (a + b) = daysFromYear y a + daysFromYear (y + a) b := by
  induction b with
  | zero => simp [daysFromYear]
  | succ n ih =>
    have h1 : a + (n + 1) = (a + n) + 1 := by omega
    rw [h1]
    show daysFromYear y (a + n) + days_in_year (y + (a + n))
      = daysFromYear y a + (daysFromYear (y + a) n + days_in_year (y + a + n))
    rw [ih, show y + (a + n) = y + a + n from by omega]
    omega

theorem daysFromYear_one (y : Nat) : daysFromYear y 1 = days_in_year y := by
  show 0 + days_in_year (y + 0) = days_in_year y
  simp

theorem daysFromYear_cons (y n : Nat) :
    daysFromYear y (n + 1) = days_in_year y + daysFromYear (y + 1) n := by
  have := daysFromYear_add y 1 n
  rw [show 1 + n = n + 1 from by omega] at this
  rw [this, daysFromYear_one]

theorem daysBeforeYear_from1970 (n : Nat) :
    daysBeforeYear (1970 + n) = daysFromYear 1970 n := by
  induction n with
  | zero => rfl
  | succ k ih =>
    rw [show 1970 + (k + 1) = (1970 + k) + 1 from by omega,
      daysBeforeYear_succ _ (by omega), ih]
    rfl

theorem is_leap_add_400 (y : Nat) : is_leap (y + 400) = is_leap y := by
  have h4 : (y + 400) % 4 = y % 4 := by omega
  have h100 : (y + 400) % 100 = y % 100 := by omega
  have h400 : (y + 400) % 400 = y % 400 := by omega
  simp [is_leap, h4, h100, h400]

theorem days_in_year_add_400 (y : Nat) : days_in_year (y + 400) = days_in_year y := by
  simp [days_in_year, is_leap_add_400]

theorem daysFromYear_shift_400 : ∀ n y, daysFromYear (y + 400) n = daysFromYear y n := by
  intro n
  induction n with
  | zero => intro y; rfl
  | succ k ih =>
    intro y
    show daysFromYear (y + 400) k + days_in_year (y + 400 + k)
      = daysFromYear y k + days_in_year (y + k)
    rw [ih, show y + 400 + k = (y + k) + 400 from by omega, days_in_year_add_400]

set_option maxRecDepth 100000 in
theorem daysFromYear_1970_400 : daysFromYear 1970 400 = 146097 := by decide

theorem daysFromYear_cycle : ∀ k, daysFromYear (1970 + 400 * k) 400 = 146097 := by
  intro k
  induction k with
  | zero => exact daysFromYear_1970_400
  | succ n ih =>
    rw [show 1970 + 400 * (n + 1) = (1970 + 400 * n) + 400 from by omega,
      daysFromYear_shift_400, ih]

theorem daysFromYear_1970_8000 : daysFromYear 1970 8000 = 2921940 := by
  have h : ∀ k, daysFromYear 1970 (400 * k) = 146097 * k := by
    intro k
    induction k with
    | zero => rfl
    | succ n ih =>
      rw [show 400 * (n + 1) = 400 * n + 400 from by omega, daysFromYear_add, ih,
        daysFromYear_cycle n]
      ring
  have := h 20
  norm_num at this
  exact this

set_option maxRecDepth 100000 in
theorem daysFromYear_9970_30 : daysFromYear 9970 30 = 10957 := by decide

theorem daysFromYear_1970_8030 : daysFromYear 1970 8030 = 2932897 := by
  rw [show (8030 : Nat) = 8000 + 30 from by omega, daysFromYear_add,
    daysFromYear_1970_8000]
  norm_num [daysFromYear_9970_30]

theorem daysBeforeYear_10000 : daysBeforeYear 10000 = 2932897 := by
  have h : daysBeforeYear (1970 + 8030) = daysFromYear 1970 8030 :=
    daysBeforeYear_from1970 8030
  rw [show (10000 : Nat) = 1970 + 8030 from by omega, h, daysFromYear_1970_8030]

theorem daysBeforeMonth_succ (y m : Nat) (h : 1 ≤ m) :
    daysBeforeMonth y (m + 1) = daysBeforeMonth y m + days_in_month y m := by
  match m, h with
  | m' + 1, _ => rfl

theorem daysBeforeMonth_13 (y : Nat) : daysBeforeMonth y 13 = days_in_year y := by
  cases h : is_leap y <;>
    simp [show (13 : Nat) = 12 + 1 from rfl, daysBeforeMonth, days_in_month, days_in_year, h]

/-- Specification of the year walk: with enough fuel it lands on the unique
year whose day range contains the day count. -/
theorem year_from_days_spec (fuel : Nat) : ∀ y d, 1970 ≤ y → d < 365 * (fuel + 1) →
    y ≤ (year_from_days fuel y d).1 ∧
    (year_from_days fuel y d).2 < days_in_year (year_from_days fuel y d).1 ∧
    daysBeforeYear (year_from_days fuel y d).1 + (year_from_days fuel y d).2
      = daysBeforeYear y + d := by
  induction fuel with
  | zero =>
    intro y d hy hd
    have hpos := days_in_year_pos y
    exact ⟨Nat.le_refl y, show d < days_in_year y by omega, rfl⟩
  | succ n ih =>
    intro y d hy hd
    by_cases h : d < days_in_year y
    · have hv : year_from_days (n + 1) y d = (y, d) := by simp [year_from_days, h]
      rw [hv]
      exact ⟨Nat.le_refl y, h, rfl⟩
    · have hv : year_from_days (n + 1) y d
          = year_from_days n (y + 1) (d - days_in_year y) := by
        simp [year_from_days, h]
      rw [hv]
      have hpos := days_in_year_pos y
      obtain ⟨h1, h2, h3⟩ := ih (y + 1) (d - days_in_year y) (by omega) (by omega)
      refine ⟨by omega, h2, ?_⟩
      rw [h3, daysBeforeYear_succ y (by omega)]
      omega

/-- Chunked unfolding of the year walk: a block of `n` full years can be
consumed at once when the day count covers it. -/
theorem year_from_days_chunk : ∀ n fuel y d, daysFromYear y n ≤ d →
    year_from_days (n + fuel) y d = year_from_days fuel (y + n) (d - daysFromYear y n) := by
  intro n
  induction n with
  | zero => intro fuel y d _; simp [daysFromYear]
  | succ k ih =>
    intro fuel y d hd
    rw [daysFromYear_cons] at hd
    have hpos := days_in_year_pos y
    rw [show k + 1 + fuel = (k + fuel) + 1 from by omega]
    show (if d < days_in_year y then (y, d)
      else year_from_days (k + fuel) (y + 1) (d - days_in_year y)) = _
    rw [if_neg (by omega), ih fuel (y + 1) (d - days_in_year y) (by omega),
      daysFromYear_cons]
    congr 1
    · omega
    · omega

/-- Specification of the month walk within one year. -/
theorem month_from_doy_spec (y : Nat) : ∀ fuel m d, 1 ≤ m → m + fuel = 12 →
    daysBeforeMonth y m + d < days_in_year y →
    1 ≤ (month_from_doy y fuel m d).1 ∧ (month_from_doy y fuel m d).1 ≤ 12 ∧
    (month_from_doy y fuel m d).2 < days_in_month y (month_from_doy y fuel m d).1 ∧
    daysBeforeMonth y (month_from_doy y fuel m d).1 + (month_from_doy y fuel m d).2
      = daysBeforeMonth y m + d := by
  intro fuel
  induction fuel with
  | zero =>
    intro m d hm hm12 hd
    have h12 : m = 12 := by omega
    subst h12
    have h13 : daysBeforeMonth y 13 = daysBeforeMonth y 12 + days_in_month y 12 :=
      daysBeforeMonth_succ y 12 (by omega)
    rw [daysBeforeMonth_13] at h13
    exact ⟨show (1 : Nat) ≤ 12 from by omega, show (12 : Nat) ≤ 12 from by omega,
      show d < days_in_month y 12 from by omega, rfl⟩
  | succ n ih =>
    intro m d hm hm12 hd
    by_cases h : d < days_in_month y m
    · have hv : month_from_doy y (n + 1) m d = (m, d) := by simp [month_from_doy, h]
      rw [hv]
      exact ⟨hm, by omega, h, rfl⟩
    · have hv : month_from_doy y (n + 1) m d
          = month_from_doy y n (m + 1) (d - days_in_month y m) := by
        simp [month_from_doy, h]
      rw [hv]
      obtain ⟨h1, h2, h3, h4⟩ := ih (m + 1) (d - days_in_month y m) (by omega) (by omega)
        (by rw [daysBeforeMonth_succ y m hm]; omega)
      refine ⟨by omega, h2, h3, ?_⟩
      rw [h4, daysBeforeMonth_succ y m hm]
      omega

/-! ## Digit and parser lemmas -/

theorem digit_char_spec (d : Nat) (hd : d < 10) :
    (Char.ofNat (48 + d)).isDigit = true ∧ (Char.ofNat (48 + d)).toNat = 48 + d := by
  interval_cases d <;> exact ⟨by decide, by decide⟩

theorem takeDigits_padded (w : Nat) : ∀ acc cnt rest n, n < 10 ^ w →
    takeDigits w acc cnt (natDigitsPadded w n ++ rest) = (acc * 10 ^ w + n, cnt + w, rest) := by
  induction w with
  | zero =>
    intro acc cnt rest n hn
    have hn0 : n = 0 := by omega
    subst hn0
    simp [natDigitsPadded, takeDigits]
  | succ v ih =>
    intro acc cnt rest n hn
    have hP : 0 < 10 ^ v := Nat.pos_pow_of_pos v (by omega)
    have hdig : n / 10 ^ v % 10 < 10 := Nat.mod_lt _ (by omega)
    obtain ⟨h1, h2⟩ := digit_char_spec _ hdig
    have hdiv : n / 10 ^ v < 10 := by
      apply Nat.div_lt_of_lt_mul
      rw [pow_succ] at hn
      omega
    have hq : n / 10 ^ v % 10 = n / 10 ^ v := Nat.mod_eq_of_lt hdiv
    have hval : (acc * 10 + n / 10 ^ v % 10) * 10 ^ v + n % 10 ^ v
        = acc * 10 ^ (v + 1) + n := by
      rw [hq]
      conv_rhs => rw [← Nat.div_add_mod n (10 ^ v)]
      ring
    have hcnt : cnt + 1 + v = cnt + (v + 1) := by omega
    show takeDigits (v + 1) acc cnt
      (Char.ofNat (48 + n / 10 ^ v % 10) :: (natDigitsPadded v (n % 10 ^ v) ++ rest)) = _
    rw [takeDigits, if_pos h1, h2,
      show 48 + n / 10 ^ v % 10 - 48 = n / 10 ^ v % 10 from by omega,
      ih (acc * 10 + n / 10 ^ v % 10) (cnt + 1) rest (n % 10 ^ v) (Nat.mod_lt _ hP),
      hval, hcnt]

theorem parseNum_padded (w : Nat) (hw : 0 < w) (n : Nat) (hn : n < 10 ^ w)
    (rest : List Char) :
    parseNum w (natDigitsPadded w n ++ rest) = some (n, w, rest) := by
  unfold parseNum
  rw [takeDigits_padded w 0 0 rest n hn]
  simp [show ¬ w = 0 from by omega]

theorem expectChar_cons (c : Char) (rest : List Char) :
    expectChar c (c :: rest) = some rest := by
  simp [expectChar]

theorem parseNumLit_padded (w : Nat) (hw : 0 < w) (lit : Char) (n : Nat)
    (hn : n < 10 ^ w) (rest : List Char) :
    parseNumLit w lit (natDigitsPadded w n ++ lit :: rest) = some (n, w, rest) := by
  have h1 : parseNum w (natDigitsPadded w n ++ lit :: rest) = some (n, w, lit :: rest) :=
    parseNum_padded w hw n hn (lit :: rest)
  simp [parseNumLit, h1, expectChar_cons]

theorem days_in_month_le (y m : Nat) : days_in_month y m ≤ 31 := by
  unfold days_in_month
  split
  · split <;> omega
  · split <;> omega

theorem parse_iso_renderIso (y m d hh mi ss us : Nat)
    (hy1 : 1000 ≤ y) (hy2 : y < 10000) (hm1 : 1 ≤ m) (hm2 : m ≤ 12)
    (hd1 : 1 ≤ d) (hd2 : d ≤ days_in_month y m) (hhh : hh ≤ 23) (hmi : mi ≤ 59)
    (hss : ss ≤ 59) (hus : us < 1000000) :
    parse_iso (renderIso y m d hh mi ss us) = some (y, m, d, hh, mi, ss, us) := by
  have hdm := days_in_month_le y m
  have hren : renderIso y m d hh mi ss us
      = natDigitsPadded 4 y ++ '-' :: (natDigitsPadded 2 m ++ '-' :: (natDigitsPadded 2 d
        ++ 'T' :: (natDigitsPadded 2 hh ++ ':' :: (natDigitsPadded 2 mi
        ++ ':' :: (natDigitsPadded 2 ss ++ '.' :: (natDigitsPadded 6 us ++ 'Z' :: [])))))) := by
    simp [renderIso, yearChars, if_pos hy2]
  rw [hren]
  simp [parse_iso,
    parseNum_padded 4 (by omega) y (by omega),
    parseNumLit_padded 2 (by omega) '-' m (by omega),
    parseNumLit_padded 2 (by omega) 'T' d (by omega),
    parseNumLit_padded 2 (by omega) ':' hh (by omega),
    parseNumLit_padded 2 (by omega) ':' mi (by omega),
    parseNumLit_padded 2 (by omega) '.' ss (by omega),
    parseNumLit_padded 6 (by omega) 'Z' us (by omega),
    expectChar_cons,
    show (1:Nat) ≤ y from by omega, hm1, hm2, hd1, hd2, hhh, hmi, hss]

theorem daysBeforeYear_1970 : daysBeforeYear 1970 = 0 := by decide

theorem daysBeforeMonth_one (y : Nat) : daysBeforeMonth y 1 = 0 := rfl

theorem renderIso_ne_nil (y m d hh mi ss us : Nat) :
    renderIso y m d hh mi ss us ≠ [] := by
  simp [renderIso]

theorem iso8601_ms_roundtrip (x : Nat) (hx : x < 253402300800000) :
    iso8601_to_ms (ms_to_iso8601 x) = .ok x := by
  have hdd : x / 1000 / 86400 = x / 86400000 := by
    rw [Nat.div_div_eq_div_mul]
  have hdlt : x / 1000 / 86400 < 2932897 := by omega
  obtain ⟨hy970, hdoy, hsum⟩ := year_from_days_spec (x / 1000 / 86400 / 365 + 1) 1970
    (x / 1000 / 86400) (by omega) (by omega)
  rw [daysBeforeYear_1970] at hsum
  have hylt : (year_from_days (x / 1000 / 86400 / 365 + 1) 1970 (x / 1000 / 86400)).1
      < 10000 := by
    by_contra hge
    have hmono := daysBeforeYear_le
      (show 10000 ≤ (year_from_days (x / 1000 / 86400 / 365 + 1) 1970 (x / 1000 / 86400)).1
        from by omega)
    rw [daysBeforeYear_10000] at hmono
    omega
  obtain ⟨hM1, hM2, hdd2, hmsum⟩ := month_from_doy_spec
    (year_from_days (x / 1000 / 86400 / 365 + 1) 1970 (x / 1000 / 86400)).1 11 1
    (year_from_days (x / 1000 / 86400 / 365 + 1) 1970 (x / 1000 / 86400)).2
    (by omega) (by omega)
    (by rw [daysBeforeMonth_one]; omega)
  rw [daysBeforeMonth_one] at hmsum
  rw [show ms_to_iso8601 x = String.mk (renderIso
      (year_from_days (x / 1000 / 86400 / 365 + 1) 1970 (x / 1000 / 86400)).1
      (month_from_doy (year_from_days (x / 1000 / 86400 / 365 + 1) 1970 (x / 1000 / 86400)).1
        11 1 (year_from_days (x / 1000 / 86400 / 365 + 1) 1970 (x / 1000 / 86400)).2).1
      ((month_from_doy (year_from_days (x / 1000 / 86400 / 365 + 1) 1970 (x / 1000 / 86400)).1
        11 1 (year_from_days (x / 1000 / 86400 / 365 + 1) 1970 (x / 1000 / 86400)).2).2 + 1)
      (x / 1000 % 86400 / 3600) (x / 1000 % 86400 % 3600 / 60) (x / 1000 % 86400 % 60)
      (x % 1000 * 1000)) from rfl]
  rw [iso8601_to_ms]
  rw [if_neg (by
    intro hcon
    exact renderIso_ne_nil _ _ _ _ _ _ _ (congrArg String.data hcon))]
  rw [show (String.mk (renderIso
      (year_from_days (x / 1000 / 86400 / 365 + 1) 1970 (x / 1000 / 86400)).1
      (month_from_doy (year_from_days (x / 1000 / 86400 / 365 + 1) 1970 (x / 1000 / 86400)).1
        11 1 (year_from_days (x / 1000 / 86400 / 365 + 1) 1970 (x / 1000 / 86400)).2).1
      ((month_from_doy (year_from_days (x / 1000 / 86400 / 365 + 1) 1970 (x / 1000 / 86400)).1
        11 1 (year_from_days (x / 1000 / 86400 / 365 + 1) 1970 (x / 1000 / 86400)).2).2 + 1)
      (x / 1000 % 86400 / 3600) (x / 1000 % 86400 % 3600 / 60) (x / 1000 % 86400 % 60)
      (x % 1000 * 1000))).data = renderIso
      (year_from_days (x / 1000 / 86400 / 365 + 1) 1970 (x / 1000 / 86400)).1
      (month_from_doy (year_from_days (x / 1000 / 86400 / 365 + 1) 1970 (x / 1000 / 86400)).1
        11 1 (year_from_days (x / 1000 / 86400 / 365 + 1) 1970 (x / 1000 / 86400)).2).1
      ((month_from_doy (year_from_days (x / 1000 / 86400 / 365 + 1) 1970 (x / 1000 / 86400)).1
        11 1 (year_from_days (x / 1000 / 86400 / 365 + 1) 1970 (x / 1000 / 86400)).2).2 + 1)
      (x / 1000 % 86400 / 3600) (x / 1000 % 86400 % 3600 / 60) (x / 1000 % 86400 % 60)
      (x % 1000 * 1000) from rfl]
  rw [parse_iso_renderIso _ _ _ _ _ _ _ (by omega) hylt hM1 hM2 (by omega) (by omega)
    (by omega) (by omega) (by omega) (by omega)]
  dsimp only
  congr 1
  simp only [days_from_civil]
  omega

theorem year_from_days_at_10000 :
    year_from_days (2932897 / 365 + 1) 1970 2932897 = (10000, 0) := by
  rw [show 2932897 / 365 + 1 = 8030 + 6 from by decide,
    year_from_days_chunk 8030 6 1970 2932897 (by rw [daysFromYear_1970_8030]),
    daysFromYear_1970_8030]
  decide

theorem ms_to_iso8601_at_year10000 :
    ms_to_iso8601 253402300800000 = "10000-01-01T00:00:00.000000Z" := by
  have h0 : ms_to_iso8601 253402300800000 = String.mk (renderIso
      (year_from_days (253402300800000 / 1000 / 86400 / 365 + 1) 1970
        (253402300800000 / 1000 / 86400)).1
      (month_from_doy (year_from_days (253402300800000 / 1000 / 86400 / 365 + 1) 1970
        (253402300800000 / 1000 / 86400)).1 11 1
        (year_from_days (253402300800000 / 1000 / 86400 / 365 + 1) 1970
          (253402300800000 / 1000 / 86400)).2).1
      ((month_from_doy (year_from_days (253402300800000 / 1000 / 86400 / 365 + 1) 1970
        (253402300800000 / 1000 / 86400)).1 11 1
        (year_from_days (253402300800000 / 1000 / 86400 / 365 + 1) 1970
          (253402300800000 / 1000 / 86400)).2).2 + 1)
      (253402300800000 / 1000 % 86400 / 3600) (253402300800000 / 1000 % 86400 % 3600 / 60)
      (253402300800000 / 1000 % 86400 % 60) (253402300800000 % 1000 * 1000)) := rfl
  rw [h0, show (253402300800000 : Nat) / 1000 / 86400 = 2932897 from by norm_num]
  norm_num
  rw [year_from_days_at_10000]
  decide

theorem iso_roundtrip_fails_at_year10000 :
    (iso8601_to_ms (ms_to_iso8601 253402300800000)).toOption = none := by
  rw [ms_to_iso8601_at_year10000]
  decide

/-- Transient responses (transport error or HTTP 429) sleep for the current
backoff, double it capped at 60, and change nothing else. -/
theorem fetchStep_transportError (w : MinuteRange) (st : FetchState) :
    fetchStep w st .transportError = .continu { st with
      backoff := min (st.backoff * 2) 60, sleeps := st.sleeps ++ [st.backoff] } := rfl

theorem fetchStep_429 (w : MinuteRange) (st : FetchState) (data : List Entry) :
    fetchStep w st (.status 429 data) = .continu { st with
      backoff := min (st.backoff * 2) 60, sleeps := st.sleeps ++ [st.backoff] } := by
  simp [fetchStep]

/-- A non-429 unsuccessful status aborts with the state untouched. -/
theorem fetchStep_fatal (w : MinuteRange) (st : FetchState) (code : Nat)
    (data : List Entry) (h429 : code ≠ 429) (hge : 400 ≤ code) :
    fetchStep w st (.status code data) = .abort st ("HTTP error: " ++ toString code) := by
  simp [fetchStep, h429, hge]

/-- An empty successful page stops the loop, resetting the backoff. -/
theorem fetchStep_empty (w : MinuteRange) (st : FetchState) (code : Nat)
    (h429 : code ≠ 429) (hlt : code < 400) :
    fetchStep w st (.status code []) = .stop { st with backoff := 1 } := by
  simp [fetchStep, h429, show ¬ 400 ≤ code from by omega]

/-- A non-empty successful page: process the records, append the accepted
rows, and advance the cursor with the one-minute fallback. -/
theorem fetchStep_success (w : MinuteRange) (st : FetchState) (code : Nat)
    (e : Entry) (es : List Entry) (h429 : code ≠ 429) (hlt : code < 400)
    (rows : List Row) (last : Option Int) (prog : Bool)
    (hproc : processEntries w.end_ms (e :: es) [] st.last_close_ms st.has_progress
      = .ok (rows, last, prog)) :
    fetchStep w st (.status code (e :: es)) = .continu { st with
      backoff := 1,
      written := st.written ++ rows,
      last_close_ms := last,
      has_progress := prog,
      start_open_ms :=
        if (es.getLastD e).open_ms + 60000 ≤ st.start_open_ms
        then st.start_open_ms + 60000
        else (es.getLastD e).open_ms + 60000 } := by
  simp [fetchStep, h429, show ¬ 400 ≤ code from by omega, hproc]

theorem minute_close_from_open_ok (o c : Int) (h : minute_close_from_open o = .ok c) :
    c = o + 60000 ∧ o % 60000 = 0 := by
  by_cases ha : o % 60000 = 0
  · refine ⟨?_, ha⟩
    simp [minute_close_from_open, ensure_minute_alignment, ha] at h
    omega
  · simp [minute_close_from_open, ensure_minute_alignment, ha] at h

theorem minute_close_from_open_aligned (o : Int) (ha : o % 60000 = 0) :
    minute_close_from_open o = .ok (o + 60000) := by
  simp [minute_close_from_open, ensure_minute_alignment, ha]

/-- The record filter: with an aligned open time, the record is skipped
exactly when it closes after the window or fails the truthy dedup check. -/
theorem processEntries_discard (end_ms : Int) (e : Entry) (es : List Entry)
    (rows : List Row) (last : Option Int) (prog : Bool)
    (halign : e.open_ms % 60000 = 0)
    (hcond : e.open_ms + 60000 > end_ms
      ∨ (intTruthy last = true ∧ e.open_ms + 60000 ≤ last.getD 0)) :
    processEntries end_ms (e :: es) rows last prog
      = processEntries end_ms es rows last prog := by
  rw [processEntries, minute_close_from_open_aligned e.open_ms halign]
  dsimp only
  rcases hcond with hc | ⟨ht, hc⟩
  · rw [if_pos hc]
  · by_cases hw : e.open_ms + 60000 > end_ms
    · rw [if_pos hw]
    · rw [if_neg hw, if_pos (by simp [ht, hc])]

theorem processEntries_accept (end_ms : Int) (e : Entry) (es : List Entry)
    (rows : List Row) (last : Option Int) (prog : Bool)
    (halign : e.open_ms % 60000 = 0)
    (hcond : ¬ (e.open_ms + 60000 > end_ms
      ∨ (intTruthy last = true ∧ e.open_ms + 60000 ≤ last.getD 0))) :
    processEntries end_ms (e :: es) rows last prog
      = processEntries end_ms es
          (rows ++ [⟨e.open_ms + 60000, e.fo, e.fh, e.fl, e.fc, e.fv⟩])
          (some (e.open_ms + 60000)) true := by
  push_neg at hcond
  obtain ⟨hw, hded⟩ := hcond
  rw [processEntries, minute_close_from_open_aligned e.open_ms halign]
  dsimp only
  rw [if_neg (by omega), if_neg ?_]
  intro hb
  rw [Bool.and_eq_true, decide_eq_true_eq] at hb
  have := hded hb.1
  omega

/-- `intTruthy last && close ≤ last` spelled out: a prior accepted close
exists, is nonzero, and is at least the candidate close. -/
theorem intTruthy_le_iff (last : Option Int) (c : Int) :
    (intTruthy last = true ∧ c ≤ last.getD 0)
      ↔ ∃ v, last = some v ∧ v ≠ 0 ∧ c ≤ v := by
  cases last with
  | none => simp [intTruthy]
  | some v => simp [intTruthy, bne_iff_ne]

/-- With a positive prior accepted close, a page fold only appends rows with
strictly increasing close stamps, all strictly above the prior close: no
duplicate of the previous page's last accepted row, and no in-page
duplicates. -/
theorem processEntries_newRows (end_ms : Int) : ∀ (es : List Entry) (rows : List Row)
    (C : Int) (prog : Bool) (out : List Row × Option Int × Bool),
    0 < C →
    processEntries end_ms es rows (some C) prog = .ok out →
    ∃ tail C2, out.1 = rows ++ tail ∧ out.2.1 = some C2 ∧ C ≤ C2 ∧
      tail.Pairwise (fun a b => a.timestamp_ms < b.timestamp_ms) ∧
      ∀ r ∈ tail, C < r.timestamp_ms ∧ r.timestamp_ms ≤ C2 := by
  intro es
  induction es with
  | nil =>
    intro rows C prog out hC hok
    rw [processEntries] at hok
    obtain rfl := Except.ok.inj hok
    exact ⟨[], C, by simp, rfl, le_refl C, List.Pairwise.nil, by simp⟩
  | cons e es ih =>
    intro rows C prog out hC hok
    rw [processEntries] at hok
    cases hm : minute_close_from_open e.open_ms with
    | error msg => rw [hm] at hok; cases hok
    | ok close =>
      rw [hm] at hok
      dsimp only at hok
      by_cases hw : close > end_ms
      · rw [if_pos hw] at hok
        exact ih rows C prog out hC hok
      · rw [if_neg hw] at hok
        have htr : intTruthy (some C) = true := by
          simp [intTruthy, bne_iff_ne]
          omega
        by_cases hle : close ≤ C
        · rw [if_pos (by simp [htr, hle])] at hok
          exact ih rows C prog out hC hok
        · rw [if_neg (by simp [htr, hle])] at hok
          obtain ⟨tail, C2, h1, h2, h3, h4, h5⟩ :=
            ih (rows ++ [⟨close, e.fo, e.fh, e.fl, e.fc, e.fv⟩]) close true out
              (by omega) hok
          refine ⟨⟨close, e.fo, e.fh, e.fl, e.fc, e.fv⟩ :: tail, C2, ?_, h2, by omega, ?_, ?_⟩
          · rw [h1]; simp
          · exact List.pairwise_cons.mpr ⟨fun r hr => (h5 r hr).1, h4⟩
          · intro r hr
            rcases List.mem_cons.mp hr with rfl | hr
            · exact ⟨by change C < close; omega, by change close ≤ C2; omega⟩
            · obtain ⟨ha, hb⟩ := h5 r hr
              exact ⟨by omega, hb⟩

/-- Every row a page fold appends comes from one of the page's records, with
the row stamp equal to that record's open time plus one minute. -/
theorem processEntries_rows_source (end_ms : Int) : ∀ (es : List Entry) (rows : List Row)
    (last : Option Int) (prog : Bool) (out : List Row × Option Int × Bool),
    processEntries end_ms es rows last prog = .ok out →
    ∀ r ∈ out.1, r ∈ rows ∨ ∃ e, e ∈ es ∧ r.timestamp_ms = e.open_ms + 60000 := by
  intro es
  induction es with
  | nil =>
    intro rows last prog out hok r hr
    rw [processEntries] at hok
    obtain rfl := Except.ok.inj hok
    exact Or.inl hr
  | cons e es ih =>
    intro rows last prog out hok r hr
    rw [processEntries] at hok
    cases hm : minute_close_from_open e.open_ms with
    | error msg => rw [hm] at hok; cases hok
    | ok close =>
      obtain ⟨hc, _⟩ := minute_close_from_open_ok e.open_ms close hm
      rw [hm] at hok
      dsimp only at hok
      by_cases hw : close > end_ms
      · rw [if_pos hw] at hok
        rcases ih rows last prog out hok r hr with h | ⟨e2, he2, hts⟩
        · exact Or.inl h
        · exact Or.inr ⟨e2, List.mem_cons_of_mem e he2, hts⟩
      · rw [if_neg hw] at hok
        by_cases hded : (intTruthy last && decide (close ≤ last.getD 0)) = true
        · rw [if_pos hded] at hok
          rcases ih rows last prog out hok r hr with h | ⟨e2, he2, hts⟩
          · exact Or.inl h
          · exact Or.inr ⟨e2, List.mem_cons_of_mem e he2, hts⟩
        · rw [if_neg hded] at hok
          rcases ih _ _ _ out hok r hr with h | ⟨e2, he2, hts⟩
          · rcases List.mem_append.mp h with h | h
            · exact Or.inl h
            · rcases List.mem_singleton.mp h with rfl
              exact Or.inr ⟨e, List.mem_cons_self e es, by simp [hc]⟩
          · exact Or.inr ⟨e2, List.mem_cons_of_mem e he2, hts⟩

/-- Any step extends the persisted rows only by rows built from the
response's records, and never moves the cursor backwards. -/
theorem fetchStep_written_start (w : MinuteRange) (st : FetchState) (resp : Response) :
    (∃ extra, (fetchStep w st resp).state.written = st.written ++ extra ∧
      ∀ r ∈ extra, ∃ e, e ∈ resp.data ∧ r.timestamp_ms = e.open_ms + 60000) ∧
    st.start_open_ms ≤ (fetchStep w st resp).state.start_open_ms := by
  cases resp with
  | transportError =>
    rw [fetchStep_transportError]
    exact ⟨⟨[], by simp [StepResult.state], by simp⟩, le_refl _⟩
  | status code data =>
    by_cases h429 : code = 429
    · subst h429
      rw [fetchStep_429]
      exact ⟨⟨[], by simp [StepResult.state], by simp⟩, le_refl _⟩
    · by_cases hge : 400 ≤ code
      · rw [fetchStep_fatal w st code data h429 hge]
        exact ⟨⟨[], by simp [StepResult.state], by simp⟩, le_refl _⟩
      · cases data with
        | nil =>
          rw [fetchStep_empty w st code h429 (by omega)]
          exact ⟨⟨[], by simp [StepResult.state], by simp⟩, le_refl _⟩
        | cons e es =>
          cases hp : processEntries w.end_ms (e :: es) [] st.last_close_ms st.has_progress with
          | error msg =>
            have hstep : fetchStep w st (.status code (e :: es))
                = .abort { st with backoff := 1 } msg := by
              simp [fetchStep, h429, hge, hp]
            rw [hstep]
            exact ⟨⟨[], by simp [StepResult.state], by simp⟩, le_refl _⟩
          | ok out =>
            obtain ⟨rows, last, prog⟩ := out
            rw [fetchStep_success w st code e es h429 (by omega) rows last prog hp]
            constructor
            · refine ⟨rows, by simp [StepResult.state], ?_⟩
              intro r hr
              have hsrc := processEntries_rows_source w.end_ms (e :: es) []
                st.last_close_ms st.has_progress (rows, last, prog) hp r hr
              rcases hsrc with h | ⟨e2, he2, hts⟩
              · exact absurd h (List.not_mem_nil r)
              · exact ⟨e2, he2, hts⟩
            · show st.start_open_ms ≤ (if (es.getLastD e).open_ms + 60000 ≤ st.start_open_ms
                then st.start_open_ms + 60000 else (es.getLastD e).open_ms + 60000)
              split <;> omega

/-- Every successful response resets the backoff to the base (the reset
happens before the empty-page check, so it covers the `break` path too). -/
theorem fetchStep_success_backoff (w : MinuteRange) (st : FetchState) (code : Nat)
    (data : List Entry) (h429 : code ≠ 429) (hlt : code < 400) :
    (fetchStep w st (.status code data)).state.backoff = 1 := by
  cases data with
  | nil =>
    rw [fetchStep_empty w st code h429 hlt]
    rfl
  | cons e es =>
    cases hp : processEntries w.end_ms (e :: es) [] st.last_close_ms st.has_progress with
    | error msg =>
      have hstep : fetchStep w st (.status code (e :: es))
          = .abort { st with backoff := 1 } msg := by
        simp [fetchStep, h429, show ¬ 400 ≤ code from by omega, hp]
      rw [hstep]
      rfl
    | ok out =>
      obtain ⟨rows, last, prog⟩ := out
      rw [fetchStep_success w st code e es h429 hlt rows last prog hp]
      rfl

/-- The backoff stays in the interval [1, 60] across every step. -/
theorem fetchStep_backoff_bounds (w : MinuteRange) (st : FetchState) (resp : Response)
    (h1 : 1 ≤ st.backoff) (h2 : st.backoff ≤ 60) :
    1 ≤ (fetchStep w st resp).state.backoff ∧ (fetchStep w st resp).state.backoff ≤ 60 := by
  cases resp with
  | transportError =>
    rw [fetchStep_transportError]
    constructor
    · show (1 : ℚ) ≤ min (st.backoff * 2) 60
      exact le_min (by linarith) (by norm_num)
    · exact min_le_right _ _
  | status code data =>
    by_cases h429 : code = 429
    · subst h429
      rw [fetchStep_429]
      constructor
      · show (1 : ℚ) ≤ min (st.backoff * 2) 60
        exact le_min (by linarith) (by norm_num)
      · exact min_le_right _ _
    · by_cases hge : 400 ≤ code
      · rw [fetchStep_fatal w st code data h429 hge]
        exact ⟨h1, h2⟩
      · rw [fetchStep_success_backoff w st code data h429 (by omega)]
        norm_num

/-- Run-level lower bound: if the cursor starts at or above `S`, every row
already persisted stamps at least `S + 60000`, and every record any response
carries opens at or after `S`, then every row persisted by the end of the
run stamps at least `S + 60000`. -/
theorem fetchRunF_written_bound (w : MinuteRange) (stream : Nat → Response) (S : Int)
    (hstream : ∀ j, ∀ e ∈ (stream j).data, S ≤ e.open_ms) :
    ∀ fuel i st, S ≤ st.start_open_ms → (∀ r ∈ st.written, S + 60000 ≤ r.timestamp_ms) →
    ∀ out, fetchRunF w stream fuel i st = some out →
    ∀ r ∈ out.state.written, S + 60000 ≤ r.timestamp_ms := by
  intro fuel
  induction fuel with
  | zero =>
    intro i st _ _ out hout
    cases hout
  | succ n ih =>
    intro i st hS hw out hout
    rw [fetchRunF] at hout
    by_cases hlt : st.start_open_ms < w.end_ms
    · rw [if_pos hlt] at hout
      obtain ⟨⟨extra, hwr, hex⟩, hst⟩ := fetchStep_written_start w st (stream i)
      have hbound : ∀ r ∈ (fetchStep w st (stream i)).state.written,
          S + 60000 ≤ r.timestamp_ms := by
        intro r hr
        rw [hwr] at hr
        rcases List.mem_append.mp hr with h | h
        · exact hw r h
        · obtain ⟨e, he, hts⟩ := hex r h
          have := hstream i e he
          omega
      cases hstep : fetchStep w st (stream i) with
      | continu st1 =>
        rw [hstep] at hout hbound hst
        simp only [StepResult.state] at hbound hst
        exact ih (i + 1) st1 (by omega) hbound out hout
      | stop st1 =>
        rw [hstep] at hout hbound
        simp only [StepResult.state] at hbound
        obtain rfl := Option.some.inj hout
        exact hbound
      | abort st1 msg =>
        rw [hstep] at hout hbound
        simp only [StepResult.state] at hbound
        obtain rfl := Option.some.inj hout
        exact hbound
    · rw [if_neg hlt] at hout
      obtain rfl := Option.some.inj hout
      exact hw

/-- Termination: as long as every request is eventually answered by a
successful response, some finite fuel completes the loop (the cursor
strictly advances on every successful non-empty page, transient retries do
not move it, and fatal errors or empty pages end the run at once). -/
theorem fetchRunF_terminates (w : MinuteRange) (stream : Nat → Response)
    (hfair : ∀ n, ∃ j, n ≤ j ∧ isSuccessResp (stream j) = true) :
    ∀ (st : FetchState) (i : Nat), ∃ fuel, (fetchRunF w stream fuel i st).isSome = true := by
  suffices h : ∀ M d i st, (w.end_ms - st.start_open_ms).toNat ≤ M →
      isSuccessResp (stream (i + d)) = true →
      ∃ fuel, (fetchRunF w stream fuel i st).isSome = true by
    intro st i
    obtain ⟨j, hij, hjs⟩ := hfair i
    exact h (w.end_ms - st.start_open_ms).toNat (j - i) i st (le_refl _)
      (by rw [show i + (j - i) = j from by omega]; exact hjs)
  intro M
  induction M with
  | zero =>
    intro d i st hM _
    refine ⟨1, ?_⟩
    have hnlt : ¬ st.start_open_ms < w.end_ms := by omega
    simp [fetchRunF, hnlt]
  | succ m ihM =>
    have hsucc : ∀ i st code data, (w.end_ms - st.start_open_ms).toNat ≤ m + 1 →
        stream i = .status code data → code ≠ 429 → code < 400 →
        ∃ fuel, (fetchRunF w stream fuel i st).isSome = true := by
      intro i st code data hM hr h429 hlt400
      by_cases hlt : st.start_open_ms < w.end_ms
      · cases data with
        | nil =>
          refine ⟨1, ?_⟩
          simp [fetchRunF, hlt, hr, fetchStep_empty w st code h429 hlt400]
        | cons e es =>
          cases hp : processEntries w.end_ms (e :: es) [] st.last_close_ms st.has_progress with
          | error msg =>
            refine ⟨1, ?_⟩
            have hstep : fetchStep w st (.status code (e :: es))
                = .abort { st with backoff := 1 } msg := by
              simp [fetchStep, h429, show ¬ 400 ≤ code from by omega, hp]
            simp [fetchRunF, hlt, hr, hstep]
          | ok out =>
            obtain ⟨rows, last, prog⟩ := out
            have hstep := fetchStep_success w st code e es h429 hlt400 rows last prog hp
            have hgt : st.start_open_ms
                < (if (es.getLastD e).open_ms + 60000 ≤ st.start_open_ms
                  then st.start_open_ms + 60000 else (es.getLastD e).open_ms + 60000) := by
              split <;> omega
            obtain ⟨j, hij, hjs⟩ := hfair (i + 1)
            obtain ⟨fuel, hf⟩ := ihM (j - (i + 1)) (i + 1)
              ({ st with
                  backoff := 1,
                  written := st.written ++ rows,
                  last_close_ms := last,
                  has_progress := prog,
                  start_open_ms := (if (es.getLastD e).open_ms + 60000 ≤ st.start_open_ms
                    then st.start_open_ms + 60000 else (es.getLastD e).open_ms + 60000) })
              (by simp only; omega)
              (by rw [show i + 1 + (j - (i + 1)) = j from by omega]; exact hjs)
            refine ⟨fuel + 1, ?_⟩
            rw [fetchRunF, if_pos hlt, hr, hstep]
            exact hf
      · refine ⟨1, ?_⟩
        simp [fetchRunF, hlt]
    intro d
    induction d with
    | zero =>
      intro i st hM hs
      simp only [Nat.add_zero] at hs
      cases hr : stream i with
      | transportError =>
        rw [hr] at hs
        simp [isSuccessResp] at hs
      | status code data =>
        rw [hr] at hs
        have hcc : code ≠ 429 ∧ code < 400 := by simpa [isSuccessResp] using hs
        exact hsucc i st code data hM hr hcc.1 hcc.2
    | succ dd ihd =>
      intro i st hM hs
      by_cases hlt : st.start_open_ms < w.end_ms
      · cases hr : stream i with
        | transportError =>
          obtain ⟨fuel, hf⟩ := ihd (i + 1)
            { st with backoff := min (st.backoff * 2) 60, sleeps := st.sleeps ++ [st.backoff] }
            (by simp only; omega)
            (by rw [show i + 1 + dd = i + (dd + 1) from by omega]; exact hs)
          refine ⟨fuel + 1, ?_⟩
          rw [fetchRunF, if_pos hlt, hr, fetchStep_transportError]
          exact hf
        | status code data =>
          by_cases h429 : code = 429
          · subst h429
            obtain ⟨fuel, hf⟩ := ihd (i + 1)
              { st with backoff := min (st.backoff * 2) 60, sleeps := st.sleeps ++ [st.backoff] }
              (by simp only; omega)
              (by rw [show i + 1 + dd = i + (dd + 1) from by omega]; exact hs)
            refine ⟨fuel + 1, ?_⟩
            rw [fetchRunF, if_pos hlt, hr, fetchStep_429]
            exact hf
          · by_cases hge : 400 ≤ code
            · refine ⟨1, ?_⟩
              simp [fetchRunF, hlt, hr, fetchStep_fatal w st code data h429 hge]
            · exact hsucc i st code data hM hr h429 (by omega)
      · refine ⟨1, ?_⟩
        simp [fetchRunF, hlt]

/-- Cursor initialization from a resume point (lines 56-61 of the fetcher):
parse the CSV's last timestamp, validate alignment, clamp to the window. -/
theorem initState_resume (w : MinuteRange) (s : String) (c : Nat)
    (hs : ¬ s = "") (hparse : iso8601_to_ms s = .ok c)
    (halign : (c : Int) % 60000 = 0) :
    initState w (some s)
      = .ok ⟨max w.start_ms ((c : Int) - 60000), some (c : Int), 1, false, [], []⟩ := by
  simp [initState, hs, hparse, ensure_minute_alignment, halign, minute_open_from_close]

/-! ## Claim theorems -/

/-- C9: `ensure_minute_alignment` fails exactly on the integers that 60000
does not divide (Lean's `Int` `%` with a positive modulus agrees with
Python's floor-mod, so this covers negative inputs with the mathematical
modulo); on the divisible ones it returns the unit value and nothing else. -/
theorem ensure_minute_alignment_iff (x : Int) :
    (ensure_minute_alignment x = Except.ok () ↔ (60000 : Int) ∣ x)
    ∧ ((∃ msg, ensure_minute_alignment x = Except.error msg) ↔ ¬ (60000 : Int) ∣ x) := by
  have hdvd : (60000 : Int) ∣ x ↔ x % 60000 = 0 := Int.dvd_iff_emod_eq_zero
  by_cases hx : x % 60000 = 0 <;>
    simp [ensure_minute_alignment, hx, hdvd]

/-- C4: a non-429 unsuccessful response aborts the run at once with the
state exactly as it was before the iteration (so no row of the in-flight
page is persisted), and in general a step only ever extends the persisted
rows with rows built from the records of its own response. -/
theorem fatal_aborts_without_persisting :
    (∀ (w : MinuteRange) (st : FetchState) (code : Nat) (data : List Entry),
      code ≠ 429 → 400 ≤ code →
      fetchStep w st (.status code data) = .abort st ("HTTP error: " ++ toString code))
    ∧ (∀ (w : MinuteRange) (st : FetchState) (resp : Response),
      ∃ extra, (fetchStep w st resp).state.written = st.written ++ extra ∧
        ∀ r ∈ extra, ∃ e, e ∈ resp.data ∧ r.timestamp_ms = e.open_ms + 60000) := by
  exact ⟨fetchStep_fatal, fun w st resp => (fetchStep_written_start w st resp).1⟩

/-- C4 witness: a fatal 500 on a non-empty page leaves the state untouched. -/
theorem fatal_aborts_without_persisting_witness :
    fetchStep ⟨0, 86400000⟩ ⟨0, none, 1, false, [], []⟩
        (.status 500 [⟨0, "o", "h", "l", "c", "v"⟩])
      = .abort ⟨0, none, 1, false, [], []⟩ "HTTP error: 500" :=
  fatal_aborts_without_persisting.1 ⟨0, 86400000⟩ ⟨0, none, 1, false, [], []⟩ 500
    [⟨0, "o", "h", "l", "c", "v"⟩] (by omega) (by omega)

/-- C7: a transport error or a 429 sleeps for the current backoff, replaces
it by `min (2 * backoff) 60`, and leaves cursor, dedup state and persisted
rows untouched while the loop continues; every successful response resets
the backoff to 1; and every step keeps the backoff inside [1, 60]. -/
theorem transient_backoff_policy :
    (∀ (w : MinuteRange) (st : FetchState),
      fetchStep w st .transportError = .continu { st with
        backoff := min (st.backoff * 2) 60, sleeps := st.sleeps ++ [st.backoff] })
    ∧ (∀ (w : MinuteRange) (st : FetchState) (data : List Entry),
      fetchStep w st (.status 429 data) = .continu { st with
        backoff := min (st.backoff * 2) 60, sleeps := st.sleeps ++ [st.backoff] })
    ∧ (∀ (w : MinuteRange) (st : FetchState) (code : Nat) (data : List Entry),
      code ≠ 429 → code < 400 → (fetchStep w st (.status code data)).state.backoff = 1)
    ∧ (∀ (w : MinuteRange) (st : FetchState) (resp : Response),
      1 ≤ st.backoff → st.backoff ≤ 60 →
      1 ≤ (fetchStep w st resp).state.backoff ∧ (fetchStep w st resp).state.backoff ≤ 60) := by
  exact ⟨fetchStep_transportError, fetchStep_429, fetchStep_success_backoff,
    fetchStep_backoff_bounds⟩

/-- C7 witness: concrete transient and success steps with the stated
backoff effects. -/
theorem transient_backoff_policy_witness :
    (fetchStep ⟨0, 86400000⟩ ⟨0, none, 1, false, [], []⟩ (.status 200 [])).state.backoff = 1
    ∧ (1 : ℚ) ≤ (fetchStep ⟨0, 86400000⟩ ⟨0, none, 1, false, [], []⟩ .transportError).state.backoff
    ∧ (fetchStep ⟨0, 86400000⟩ ⟨0, none, 1, false, [], []⟩ .transportError).state.backoff ≤ 60 :=
  ⟨transient_backoff_policy.2.2.1 ⟨0, 86400000⟩ ⟨0, none, 1, false, [], []⟩ 200 []
      (by omega) (by omega),
    (transient_backoff_policy.2.2.2 ⟨0, 86400000⟩ ⟨0, none, 1, false, [], []⟩ .transportError
      (by norm_num) (by norm_num)).1,
    (transient_backoff_policy.2.2.2 ⟨0, 86400000⟩ ⟨0, none, 1, false, [], []⟩ .transportError
      (by norm_num) (by norm_num)).2⟩

/-- C3: after a successful non-empty page the cursor is set to the page's
last record's open time plus one minute, forced to exactly the old cursor
plus one minute whenever that value does not strictly exceed it — so the
cursor strictly increases; and under the assumption that every request is
eventually answered successfully, the loop terminates on some finite fuel. -/
theorem cursor_progress_and_termination :
    (∀ (w : MinuteRange) (st : FetchState) (code : Nat) (e : Entry) (es : List Entry)
      (rows : List Row) (last : Option Int) (prog : Bool),
      code ≠ 429 → code < 400 →
      processEntries w.end_ms (e :: es) [] st.last_close_ms st.has_progress
        = .ok (rows, last, prog) →
      ∃ st1, fetchStep w st (.status code (e :: es)) = .continu st1 ∧
        st1.start_open_ms = (if (es.getLastD e).open_ms + 60000 ≤ st.start_open_ms
          then st.start_open_ms + 60000 else (es.getLastD e).open_ms + 60000) ∧
        st.start_open_ms < st1.start_open_ms)
    ∧ (∀ (w : MinuteRange) (stream : Nat → Response),
      (∀ n, ∃ j, n ≤ j ∧ isSuccessResp (stream j) = true) →
      ∀ (st : FetchState) (i : Nat), ∃ fuel, (fetchRunF w stream fuel i st).isSome = true) := by
  constructor
  · intro w st code e es rows last prog h429 hlt hp
    refine ⟨_, fetchStep_success w st code e es h429 hlt rows last prog hp, rfl, ?_⟩
    show st.start_open_ms < (if (es.getLastD e).open_ms + 60000 ≤ st.start_open_ms
      then st.start_open_ms + 60000 else (es.getLastD e).open_ms + 60000)
    split <;> omega
  · exact fetchRunF_terminates

/-- C3 witness: a stale one-record page forces a one-minute advance, and a
constantly successful upstream terminates the run. -/
theorem cursor_progress_and_termination_witness :
    (∃ st1, fetchStep ⟨0, 86400000⟩ ⟨120000, none, 1, false, [], []⟩
        (.status 200 [⟨0, "o", "h", "l", "c", "v"⟩]) = .continu st1 ∧
      st1.start_open_ms = (if (0 : Int) + 60000 ≤ 120000
        then (120000 : Int) + 60000 else 0 + 60000) ∧
      (120000 : Int) < st1.start_open_ms)
    ∧ ∃ fuel, (fetchRunF ⟨0, 86400000⟩ (fun _ => .status 200 []) fuel 0
        ⟨0, none, 1, false, [], []⟩).isSome = true := by
  constructor
  · have h := cursor_progress_and_termination.1 ⟨0, 86400000⟩
      ⟨120000, none, 1, false, [], []⟩ 200 ⟨0, "o", "h", "l", "c", "v"⟩ []
      [⟨60000, "o", "h", "l", "c", "v"⟩] (some 60000) true (by omega) (by omega) rfl
    simpa using h
  · exact cursor_progress_and_termination.2 ⟨0, 86400000⟩ (fun _ => .status 200 [])
      (fun n => ⟨n, le_refl n, rfl⟩) ⟨0, none, 1, false, [], []⟩ 0

/-- C1 counterexample: with `last_accepted_close_ms = 0` (a prior accepted
close exists and `close_ms = 0 ≤ 0 = last_accepted_close_ms`, and the window
check does not fire), the engine still accepts the record — Python's
`if last_close_ms and ...` is falsy at 0, so the claimed iff fails. -/
theorem record_filter_iff_counterexample :
    processEntries 60000 [⟨-60000, "o", "h", "l", "c", "v"⟩] [] (some 0) false
      = .ok ([⟨0, "o", "h", "l", "c", "v"⟩], some 0, true)
    ∧ (some (0 : Int)).isSome = true
    ∧ (-60000 : Int) + 60000 ≤ (some (0 : Int)).getD 0
    ∧ ¬ ((-60000 : Int) + 60000 > 60000) := by
  refine ⟨rfl, rfl, by norm_num, by norm_num⟩

/-- C1 (amended): a record with aligned open time is discarded — nothing
persisted, `last_accepted_close_ms` unchanged — exactly when its close lies
beyond the window's end or a prior accepted close exists **with a nonzero
value** at or above it; otherwise it is accepted, appending exactly its row
and setting `last_accepted_close_ms` to its close.  Moreover, starting from
a positive prior accepted close, one page appends only rows with strictly
increasing closes, all strictly above that prior close — an overlapping
page produces no duplicate row. -/
theorem record_filter_and_dedup :
    (∀ (end_ms : Int) (e : Entry) (es : List Entry) (rows : List Row)
      (last : Option Int) (prog : Bool), e.open_ms % 60000 = 0 →
      ((e.open_ms + 60000 > end_ms ∨ ∃ v, last = some v ∧ v ≠ 0 ∧ e.open_ms + 60000 ≤ v) →
        processEntries end_ms (e :: es) rows last prog
          = processEntries end_ms es rows last prog)
      ∧ (¬ (e.open_ms + 60000 > end_ms ∨ ∃ v, last = some v ∧ v ≠ 0 ∧ e.open_ms + 60000 ≤ v) →
        processEntries end_ms (e :: es) rows last prog
          = processEntries end_ms es
              (rows ++ [⟨e.open_ms + 60000, e.fo, e.fh, e.fl, e.fc, e.fv⟩])
              (some (e.open_ms + 60000)) true))
    ∧ (∀ (end_ms C : Int) (es : List Entry) (rows : List Row) (prog : Bool)
      (out : List Row × Option Int × Bool), 0 < C →
      processEntries end_ms es rows (some C) prog = .ok out →
      ∃ tail C2, out.1 = rows ++ tail ∧ out.2.1 = some C2 ∧ C ≤ C2 ∧
        tail.Pairwise (fun a b => a.timestamp_ms < b.timestamp_ms) ∧
        ∀ r ∈ tail, C < r.timestamp_ms) := by
  constructor
  · intro end_ms e es rows last prog halign
    constructor
    · intro hcond
      apply processEntries_discard end_ms e es rows last prog halign
      rcases hcond with h | h
      · exact Or.inl h
      · exact Or.inr ((intTruthy_le_iff last (e.open_ms + 60000)).mpr h)
    · intro hcond
      apply processEntries_accept end_ms e es rows last prog halign
      intro hcon
      apply hcond
      rcases hcon with h | h
      · exact Or.inl h
      · exact Or.inr ((intTruthy_le_iff last (e.open_ms + 60000)).mp h)
  · intro end_ms C es rows prog out hC hok
    obtain ⟨tail, C2, h1, h2, h3, h4, h5⟩ :=
      processEntries_newRows end_ms es rows C prog out hC hok
    exact ⟨tail, C2, h1, h2, h3, h4, fun r hr => (h5 r hr).1⟩

/-- C1 witness: a concrete duplicate head record is discarded while the next
record is accepted, and the page fold appends one strictly newer row. -/
theorem record_filter_and_dedup_witness :
    (processEntries 86400000 [⟨0, "o", "h", "l", "c", "v"⟩] [] (some 60000) false
      = processEntries 86400000 [] [] (some 60000) false)
    ∧ (processEntries 86400000 [⟨60000, "o", "h", "l", "c", "v"⟩] [] (some 60000) false
      = processEntries 86400000 []
          [⟨120000, "o", "h", "l", "c", "v"⟩] (some 120000) true)
    ∧ ∃ tail C2,
        ([⟨120000, "o", "h", "l", "c", "v"⟩] : List Row) = [] ++ tail ∧
        (some (120000 : Int)) = some C2 ∧ (60000 : Int) ≤ C2 ∧
        tail.Pairwise (fun a b => a.timestamp_ms < b.timestamp_ms) ∧
        ∀ r ∈ tail, (60000 : Int) < r.timestamp_ms := by
  refine ⟨?_, ?_, ?_⟩
  · exact ((record_filter_and_dedup.1 86400000 ⟨0, "o", "h", "l", "c", "v"⟩ [] []
      (some 60000) false (by norm_num)).1
      (Or.inr ⟨60000, rfl, by norm_num, by norm_num⟩))
  · exact ((record_filter_and_dedup.1 86400000 ⟨60000, "o", "h", "l", "c", "v"⟩ [] []
      (some 60000) false (by norm_num)).2
      (by push_neg; exact ⟨by norm_num, fun v hv => by
        obtain rfl := Option.some.inj hv; intro _; norm_num⟩))
  · exact record_filter_and_dedup.2 86400000 60000 [⟨60000, "o", "h", "l", "c", "v"⟩]
      [] false ([⟨120000, "o", "h", "l", "c", "v"⟩], some 120000, true) (by norm_num) rfl

/-- C10: the dedup comparison is guarded by Python truthiness, so a resume
high-water mark of exactly 0 (close time 1970-01-01T00:00:00.000000Z)
initializes `last_accepted_close_ms` to 0, and with that value (or after
accepting a candle closing at 0) subsequent in-window records are accepted
without being compared against it. -/
theorem truthiness_skips_zero_dedup :
    (∀ w : MinuteRange, initState w (some "1970-01-01T00:00:00.000000Z")
      = .ok ⟨max w.start_ms (-60000), some 0, 1, false, [], []⟩)
    ∧ (∀ (end_ms : Int) (e : Entry) (es : List Entry) (rows : List Row) (prog : Bool),
      e.open_ms % 60000 = 0 → e.open_ms + 60000 ≤ end_ms →
      processEntries end_ms (e :: es) rows (some 0) prog
        = processEntries end_ms es
            (rows ++ [⟨e.open_ms + 60000, e.fo, e.fh, e.fl, e.fc, e.fv⟩])
            (some (e.open_ms + 60000)) true) := by
  constructor
  · intro w
    have hp : iso8601_to_ms "1970-01-01T00:00:00.000000Z" = Except.ok 0 := rfl
    have h := initState_resume w "1970-01-01T00:00:00.000000Z" 0 (by decide) hp (by decide)
    simpa using h
  · intro end_ms e es rows prog halign hwin
    apply processEntries_accept end_ms e es rows (some 0) prog halign
    intro hcon
    rcases hcon with h | ⟨ht, _⟩
    · omega
    · simp [intTruthy] at ht

/-- C10 witness: a record closing at or before the zero high-water mark is
still accepted. -/
theorem truthiness_skips_zero_dedup_witness :
    initState ⟨-86400000, 0⟩ (some "1970-01-01T00:00:00.000000Z")
      = .ok ⟨max (-86400000 : Int) (-60000), some 0, 1, false, [], []⟩
    ∧ processEntries 0 [⟨-60000, "o", "h", "l", "c", "v"⟩] [] (some 0) false
      = processEntries 0 [] [⟨0, "o", "h", "l", "c", "v"⟩] (some 0) true := by
  constructor
  · exact truthiness_skips_zero_dedup.1 ⟨-86400000, 0⟩
  · have h := truthiness_skips_zero_dedup.2 0 ⟨-60000, "o", "h", "l", "c", "v"⟩ [] [] false
      (by norm_num) (by norm_num)
    simpa using h

/-- C2: with a persisted series whose last row parses to minute-aligned
close time `C`, the run initializes the cursor to
`max(window.start_ms, openFromClose C)` and `last_accepted_close_ms` to `C`;
and for any upstream whose records never open before that initial cursor
(requests only ever ask for intervals starting there or later), every row
the run persists — in particular the first — has open time
`timestamp_ms - 60000` at least `C - 60000 = openFromClose C`, never
earlier. -/
theorem resume_initialization_no_early_candle (w : MinuteRange) (s : String) (c : Nat)
    (hs : ¬ s = "") (hparse : iso8601_to_ms s = Except.ok c)
    (halign : (c : Int) % 60000 = 0) :
    initState w (some s)
      = .ok ⟨max w.start_ms ((c : Int) - 60000), some (c : Int), 1, false, [], []⟩
    ∧ ∀ (stream : Nat → Response),
      (∀ j, ∀ e ∈ (stream j).data, max w.start_ms ((c : Int) - 60000) ≤ e.open_ms) →
      ∀ fuel i out, fetchRunF w stream fuel i
          ⟨max w.start_ms ((c : Int) - 60000), some (c : Int), 1, false, [], []⟩ = some out →
      ∀ r ∈ out.state.written, (c : Int) - 60000 ≤ r.timestamp_ms - 60000 := by
  refine ⟨initState_resume w s c hs hparse halign, ?_⟩
  intro stream hstream fuel i out hout r hr
  have h := fetchRunF_written_bound w stream (max w.start_ms ((c : Int) - 60000)) hstream
    fuel i _ (le_refl _) (by simp) out hout r hr
  have hmax : (c : Int) - 60000 ≤ max w.start_ms ((c : Int) - 60000) := le_max_right _ _
  omega

/-- C2 witness: resuming from 2024-01-01T12:00:00Z inside the 2024-01-01
window puts the cursor at 11:59 and keeps every persisted row at or after
the resume point (the empty-upstream run persists nothing). -/
theorem resume_initialization_no_early_candle_witness :
    (initState ⟨1704067200000, 1704153600000⟩ (some "2024-01-01T12:00:00.000000Z")
      = .ok ⟨max (1704067200000 : Int) ((1704110400000 : Int) - 60000),
          some 1704110400000, 1, false, [], []⟩)
    ∧ ∀ r ∈ (RunOutcome.finished
        ⟨max (1704067200000 : Int) ((1704110400000 : Int) - 60000),
          some 1704110400000, 1, false, [], []⟩).state.written,
        (1704110400000 : Int) - 60000 ≤ r.timestamp_ms - 60000 := by
  have h := resume_initialization_no_early_candle ⟨1704067200000, 1704153600000⟩
    "2024-01-01T12:00:00.000000Z" 1704110400000 (by decide) rfl (by decide)
  refine ⟨h.1, h.2 (fun _ => .status 200 []) ?_ 1 0 _ rfl⟩
  intro j e he
  simp [Response.data] at he

/-- C6 counterexample: at the first millisecond of year 10000 (a
minute-aligned non-negative value) the round trip fails — `datetime` cannot
represent year 10000, mirrored here by the 4-digit `%Y` parse rejecting the
5-digit year the formatter emits. -/
theorem isoToMs_roundtrip_counterexample :
    253402300800000 % 60000 = 0
    ∧ iso8601_to_ms (ms_to_iso8601 253402300800000) ≠ Except.ok 253402300800000 := by
  refine ⟨by norm_num, ?_⟩
  intro hcon
  have h := iso_roundtrip_fails_at_year10000
  rw [hcon] at h
  simp [Except.toOption] at h

/-- C6 (amended): for every minute-aligned `x` with
`0 ≤ x < 253402300800000` (strictly before year 10000, `datetime`'s range),
the ISO8601 round trip is exact and loss-free. -/
theorem isoToMs_msToIso_roundtrip (x : Nat) (hmin : x % 60000 = 0)
    (hlt : x < 253402300800000) :
    iso8601_to_ms (ms_to_iso8601 x) = Except.ok x :=
  iso8601_ms_roundtrip x hlt

/-- C6 witness: the round trip at 2024-01-01T00:01:00Z. -/
theorem isoToMs_msToIso_roundtrip_witness :
    1704067260000 % 60000 = 0 ∧ 1704067260000 < 253402300800000
    ∧ iso8601_to_ms (ms_to_iso8601 1704067260000) = Except.ok 1704067260000 :=
  ⟨by norm_num, by norm_num,
    isoToMs_msToIso_roundtrip 1704067260000 (by norm_num) (by norm_num)⟩

end CentralDataKitchen